import Mathlib

/-!
Verification of the budget-api backend (Django REST application).

We give a shallow embedding of the data model (`budapp/models.py`), the
budget rollover operation (`app/views.py`, `BudgetViewSet.copy_budget`),
the copy-budget request validation (`app/serializers.py`,
`CopyBudgetSerializer.validate_source`), the `spent` aggregation
(`BudgetCategory.spent`), the ownership-scoped querysets
(`OwnershipFilterMixin.get_queryset` and the per-viewset overrides), the
transaction update path (`TransactionSerializer.update`) and payee
creation (`PayeeViewSet.perform_create` with `PayeeSerializer`).

The relational store is modelled as lists of rows; primary keys are
drawn from a single `nextId` counter.  Fixed-point decimal amounts
(`DecimalField(decimal_places=2)`) are modelled as integers counted in
cents, which is exact.  Months are the three-letter codes stored by the
`Budget.month` CharField.  Django `get_or_create` is modelled as a
first-match lookup followed by an insertion at the end of the row list
when no match exists.
-/

namespace Budapp

/-- A row of the `Budget` model (`budapp/models.py`): month code, year,
owner (user primary key). -/
structure Budget where
  id : Nat
  month : String
  year : Int
  owner : Nat
  deriving DecidableEq, Repr

/-- A row of `BudgetCategoryGroup`: name plus foreign key to its budget. -/
structure BudgetCategoryGroup where
  id : Nat
  name : String
  budget : Nat
  deriving DecidableEq, Repr

/-- A row of `BudgetCategory`: category name, foreign key to its group,
and the decimal `limit` (in cents). -/
structure BudgetCategory where
  id : Nat
  category : String
  group : Nat
  limit : Int
  deriving DecidableEq, Repr

/-- A row of `Payee`: name plus owner. -/
structure Payee where
  id : Nat
  name : String
  owner : Nat
  deriving DecidableEq, Repr

/-- A row of `Transaction`: decimal amount (in cents), foreign keys to
payee and budget category, and a date (modelled as an integer day
number; no claim depends on date structure). -/
structure Transaction where
  id : Nat
  amount : Int
  payee : Nat
  budget_category : Nat
  date : Int
  deriving DecidableEq, Repr

/-- The relational store: one list of rows per model, plus the shared
primary-key counter used for fresh rows. -/
structure Store where
  budgets : List Budget
  budget_category_groups : List BudgetCategoryGroup
  budget_categories : List BudgetCategory
  payees : List Payee
  transactions : List Transaction
  nextId : Nat
  deriving DecidableEq, Repr

/-- `Budget.MONTH_CHOICES` from `budapp/models.py`: short code and full
name of each month, in calendar order. -/
def MONTH_CHOICES : List (String × String) :=
  [("JAN", "January"), ("FEB", "February"), ("MAR", "March"),
   ("APR", "April"), ("MAY", "May"), ("JUN", "June"),
   ("JUL", "July"), ("AUG", "August"), ("SEP", "September"),
   ("OCT", "October"), ("NOV", "November"), ("DEC", "December")]

/-- `Budget.MONTH_LOOKUP`: maps a month short code to its index in
`MONTH_CHOICES` (a Python dict comprehension over the enumerated
choices); `none` models the `KeyError` on an unknown code. -/
def MONTH_LOOKUP (code : String) : Option Nat :=
  (MONTH_CHOICES.enum.find? (fun p => p.2.1 == code)).map (fun p => p.1)

/-- `Budget.get_previous_month` (`budapp/models.py`): decrement the
month index; when the result is negative, wrap to 11 (December) and
decrement the year. -/
def get_previous_month (month_idx year : Int) : Int × Int :=
  let m := month_idx - 1
  if m < 0 then (11, year - 1) else (m, year)

/-- The filter used by `Budget.objects.get_or_create(year=, month=, owner=)`. -/
def budgetKey (owner : Nat) (month : String) (year : Int) (b : Budget) : Bool :=
  b.owner == owner && b.month == month && b.year == year

/-- `Budget.objects.get_or_create(year=.., month=.., owner=..)`: return
the first matching row unchanged, or append a fresh row. -/
def budgetGetOrCreate (s : Store) (month : String) (year : Int) (owner : Nat) :
    Budget × Store :=
  match s.budgets.find? (budgetKey owner month year) with
  | some b => (b, s)
  | none =>
      let b : Budget := ⟨s.nextId, month, year, owner⟩
      (b, { s with budgets := s.budgets ++ [b], nextId := s.nextId + 1 })

/-- The lookup behind `BudgetCategoryGroup.objects.get_or_create(budget=, name=)`. -/
def findGroup (s : Store) (bid : Nat) (name : String) : Option BudgetCategoryGroup :=
  s.budget_category_groups.find? (fun g => g.budget == bid && g.name == name)

/-- `BudgetCategoryGroup.objects.get_or_create(budget=.., name=..)`
(used by `BudgetCategorySerializer.get_or_create_related` and by the
rollover copy). -/
def groupGetOrCreate (s : Store) (bid : Nat) (name : String) :
    BudgetCategoryGroup × Store :=
  match findGroup s bid name with
  | some g => (g, s)
  | none =>
      let g : BudgetCategoryGroup := ⟨s.nextId, name, bid⟩
      (g, { s with budget_category_groups := s.budget_category_groups ++ [g],
                   nextId := s.nextId + 1 })

/-- The lookup behind the category get-or-create of the rollover copy. -/
def findCat (s : Store) (gid : Nat) (name : String) : Option BudgetCategory :=
  s.budget_categories.find? (fun c => c.group == gid && c.category == name)

/-- Category get-or-create keyed on (group, category name); a freshly
created category takes the given `limit`, an existing one is returned
untouched. -/
def categoryGetOrCreate (s : Store) (gid : Nat) (name : String) (lim : Int) :
    BudgetCategory × Store :=
  match findCat s gid name with
  | some c => (c, s)
  | none =>
      let c : BudgetCategory := ⟨s.nextId, name, gid, lim⟩
      (c, { s with budget_categories := s.budget_categories ++ [c],
                   nextId := s.nextId + 1 })

/-- The category groups belonging to a budget (reverse foreign key
`budget.budget_category_groups`). -/
def groupsOf (s : Store) (bid : Nat) : List BudgetCategoryGroup :=
  s.budget_category_groups.filter (fun g => g.budget == bid)

/-- The categories belonging to a group (reverse foreign key
`group.budget_categories`). -/
def categoriesOf (s : Store) (gid : Nat) : List BudgetCategory :=
  s.budget_categories.filter (fun c => c.group == gid)

/-- `Budget.previous` (`budapp/models.py`): look up the month index of
this budget via `MONTH_LOOKUP` (a missing code is the Python
`KeyError`), compute the previous month, and fetch the budget of the
same owner for that month and year, or `none` on `DoesNotExist`. -/
def previous (s : Store) (b : Budget) : Except String (Option Budget) :=
  match MONTH_LOOKUP b.month with
  | none => Except.error "KeyError"
  | some idx =>
      let p := get_previous_month (Int.ofNat idx) b.year
      let code := (MONTH_CHOICES.getD p.1.toNat ("", "")).1
      Except.ok (s.budgets.find?
        (fun x => x.owner == b.owner && x.year == p.2 && x.month == code))

/-- The source-defaulting step of `BudgetViewSet.copy_budget`
(`app/views.py`): when no explicit source was supplied, the source is
`target.previous`. -/
def resolved_source (s : Store) (target : Budget) (source : Option Budget) :
    Except String (Option Budget) :=
  match source with
  | some sb => Except.ok (some sb)
  | none => previous s target

/-- One category step of the rollover copy: get-or-create the category
of the given name and limit inside the target group `tgid`. -/
def catFoldStep (tgid : Nat) (st2 : Store) (c : BudgetCategory) : Store :=
  (categoryGetOrCreate st2 tgid c.category c.limit).2

/-- One group step of the rollover copy: get-or-create the same-named
group under the target budget `tid`, then copy each category of the
source group `g` (as listed in the snapshot `s0`) into it. -/
def groupFoldStep (s0 : Store) (tid : Nat) (st : Store) (g : BudgetCategoryGroup) :
    Store :=
  let r := groupGetOrCreate st tid g.name
  (categoriesOf s0 g.id).foldl (catFoldStep r.1.id) r.2

/-- Modelled from the spec: `Budget.copy_categories` is called by
`BudgetViewSet.copy_budget` (`app/views.py`) but its definition is not
under `src/`.  Per spec section 4.3: for every category group owned by
the source budget, get-or-create a group of the same name under the
target; for every category within that source group, get-or-create a
category of the same name within the corresponding target group,
copying the `limit` value; existing target categories are left
untouched. -/
def copy_categories (s : Store) (target source : Budget) : Store :=
  (groupsOf s source.id).foldl (groupFoldStep s target.id) s

/-- Modelled from the spec: `Budget.delete_categories` is called by
`BudgetViewSet.copy_budget` (`app/views.py`) but its definition is not
under `src/`.  Per spec sections 3 and 4.3: delete all of the target
budget category groups and, transitively (cascade), their categories
and the transactions referencing those categories. -/
def delete_categories (s : Store) (target : Budget) : Store :=
  let gids := (s.budget_category_groups.filter
    (fun g => g.budget == target.id)).map (fun g => g.id)
  let cids := (s.budget_categories.filter
    (fun c => gids.contains c.group)).map (fun c => c.id)
  { s with
    budget_category_groups :=
      s.budget_category_groups.filter (fun g => !(g.budget == target.id)),
    budget_categories :=
      s.budget_categories.filter (fun c => !(gids.contains c.group)),
    transactions :=
      s.transactions.filter (fun t => !(cids.contains t.budget_category)) }

/-- `BudgetViewSet.copy_budget(target_year, target_month, user, source)`
(`app/views.py`): get-or-create the target budget, default the source
to the previous month, then either copy the source categories or delete
the target categories. -/
def copy_budget (s : Store) (target_year : Int) (target_month : String)
    (user : Nat) (source : Option Budget) : Except String Store :=
  let r := budgetGetOrCreate s target_month target_year user
  match resolved_source r.2 r.1 source with
  | Except.error e => Except.error e
  | Except.ok (some sb) => Except.ok (copy_categories r.2 r.1 sb)
  | Except.ok none => Except.ok (delete_categories r.2 r.1)

/-- The copy-budget endpoint (`app/views.py` action plus
`CopyBudgetSerializer`): an explicit source primary key is resolved
against all budgets (`PrimaryKeyRelatedField` with the unrestricted
queryset, failing validation on an unknown pk) and `validate_source`
rejects a source owned by another user before any mutation. -/
def copy_budget_action (s : Store) (user : Nat) (target_year : Int)
    (target_month : String) (source_pk : Option Nat) : Except String Store :=
  match source_pk with
  | none => copy_budget s target_year target_month user none
  | some pk =>
      match s.budgets.find? (fun b => b.id == pk) with
      | none => Except.error "Invalid pk"
      | some sb =>
          if sb.owner ≠ user then
            Except.error "You cannot copy another users budget."
          else copy_budget s target_year target_month user (some sb)

/-- The store left behind by an API call: an error response leaves the
store as it was. -/
def okOr (s : Store) : Except String Store → Store
  | Except.ok s' => s'
  | Except.error _ => s

/-- `BudgetCategory.spent` (`budapp/models.py`): filter the transactions
by `budget_category_id`, sum their amounts, and coalesce the empty sum
(SQL `NULL`) to the decimal zero. -/
def spent (s : Store) (pk : Nat) : Int :=
  let l := s.transactions.filter (fun t => t.budget_category == pk)
  match l with
  | [] => 0
  | _ => (l.map (fun t => t.amount)).sum

/-- The authenticated caller of a request: user primary key plus the
administrator flag (`User.is_staff`). -/
structure Requester where
  id : Nat
  is_staff : Bool
  deriving DecidableEq, Repr

/-- `BudgetViewSet.get_queryset` (`app/views.py`):
`Budget.objects.filter(owner=self.request.user)` — no branch on the
administrator flag. -/
def budget_get_queryset (s : Store) (r : Requester) : List Budget :=
  s.budgets.filter (fun b => b.owner == r.id)

/-- `BudgetCategoryGroupViewSet.get_queryset`:
`filter(budget__owner=self.request.user)`. -/
def group_get_queryset (s : Store) (r : Requester) : List BudgetCategoryGroup :=
  s.budget_category_groups.filter (fun g =>
    s.budgets.any (fun b => b.id == g.budget && b.owner == r.id))

/-- `BudgetCategoryViewSet.get_queryset`:
`filter(group__budget__owner=self.request.user)`. -/
def category_get_queryset (s : Store) (r : Requester) : List BudgetCategory :=
  s.budget_categories.filter (fun c =>
    s.budget_category_groups.any (fun g => g.id == c.group &&
      s.budgets.any (fun b => b.id == g.budget && b.owner == r.id)))

/-- `TransactionViewSet.get_queryset`:
`filter(budget_category__group__budget__owner=self.request.user)`. -/
def transaction_get_queryset (s : Store) (r : Requester) : List Transaction :=
  s.transactions.filter (fun t =>
    s.budget_categories.any (fun c => c.id == t.budget_category &&
      s.budget_category_groups.any (fun g => g.id == c.group &&
        s.budgets.any (fun b => b.id == g.budget && b.owner == r.id))))

/-- `PayeeViewSet.get_queryset`: `Payee.objects.filter(owner=self.request.user)`. -/
def payee_get_queryset (s : Store) (r : Requester) : List Payee :=
  s.payees.filter (fun p => p.owner == r.id)

/-- `Payee.objects.get_or_create(name=.., owner=..)` (used by
`TransactionSerializer.get_or_create_related`). -/
def payeeGetOrCreate (s : Store) (name : String) (owner : Nat) : Payee × Store :=
  match s.payees.find? (fun p => p.name == name && p.owner == owner) with
  | some p => (p, s)
  | none =>
      let p : Payee := ⟨s.nextId, name, owner⟩
      (p, { s with payees := s.payees ++ [p], nextId := s.nextId + 1 })

/-- The update payload accepted by `TransactionSerializer` (fields
`amount`, `budget_category`, `date`, `payee`). -/
structure TxnPayload where
  amount : Int
  budget_category : Nat
  date : Int
  payee : String
  deriving DecidableEq, Repr

/-- `instance.save()`: rewrite the row with the same primary key. -/
def saveTransaction (s : Store) (t : Transaction) : Store :=
  { s with transactions := s.transactions.map fun x => if x.id == t.id then t else x }

/-- `TransactionSerializer.update` (`app/serializers.py`): get-or-create
the payee named in the payload, call `instance.save()`, and return the
instance; the validated amount, budget_category, date and resolved
payee are never assigned to the instance. -/
def transaction_update (s : Store) (user : Nat) (tr : Transaction)
    (payload : TxnPayload) : Transaction × Store :=
  let r := payeeGetOrCreate s payload.payee user
  (tr, saveTransaction r.2 tr)

/-- The create path of `TransactionSerializer` (`app/serializers.py`):
`budget_category` is a `PrimaryKeyRelatedField` over the unrestricted
`BudgetCategory.objects.all()` queryset, so validation only requires
the referenced category to exist — it is not filtered by owner.
`create` then get-or-creates the payee named in the payload for the
requesting user and stores the transaction row. -/
def transaction_create (s : Store) (user : Nat) (amount : Int)
    (budget_category_pk : Nat) (date : Int) (payee_name : String) :
    Except String (Transaction × Store) :=
  match s.budget_categories.find? (fun c => c.id == budget_category_pk) with
  | none => Except.error "Invalid pk"
  | some c =>
      let r := payeeGetOrCreate s payee_name user
      let t : Transaction := ⟨r.2.nextId, amount, r.1.id, c.id, date⟩
      Except.ok (t, { r.2 with transactions := r.2.transactions ++ [t], nextId := r.2.nextId + 1 })

/-- `PayeeViewSet.perform_create` with `PayeeSerializer`
(`app/views.py`, `app/serializers.py`): the serializer exposes only
`pk` and `name`, so an owner submitted in the payload is dropped at
deserialization (`submitted_owner` is never consulted), and
`serializer.save(owner=self.request.user)` stores the requester as
owner.  The (name, owner) unique constraint rejects a duplicate. -/
def payee_create (s : Store) (user : Nat) (name : String)
    (submitted_owner : Option Nat) : Except String (Payee × Store) :=
  if s.payees.any (fun p => p.name == name && p.owner == user) then
    Except.error "unique violation"
  else
    let p : Payee := ⟨s.nextId, name, user⟩
    Except.ok (p, { s with payees := s.payees ++ [p], nextId := s.nextId + 1 })

/-! ### Concrete stores used to evaluate the definitions -/

/-- A store holding one budget owned by user 2 and nothing else. -/
def exStoreB : Store :=
  { budgets := [⟨10, "JAN", 2024, 2⟩], budget_category_groups := [],
    budget_categories := [], payees := [], transactions := [], nextId := 11 }

/-- A store holding a full ownership chain for user 2: one budget, one
group, one category, one payee and two transactions of 10.00 and 5.50
(1000 and 550 cents) against the category. -/
def exStoreFull : Store :=
  { budgets := [⟨10, "JAN", 2024, 2⟩],
    budget_category_groups := [⟨11, "Living", 10⟩],
    budget_categories := [⟨12, "Rent", 11, 100000⟩],
    payees := [⟨13, "Landlord", 2⟩],
    transactions := [⟨14, 1000, 13, 12, 0⟩, ⟨15, 550, 13, 12, 0⟩],
    nextId := 16 }

/-- The store produced when user 1 creates a transaction of 5.00
against category 12 of user 2 in `exStoreFull`: the write succeeds,
creating payee 16 for user 1 and transaction 17 whose derived owner
(category 12 → group 11 → budget 10) is user 2. -/
def exStoreWrite : Store :=
  { budgets := [⟨10, "JAN", 2024, 2⟩],
    budget_category_groups := [⟨11, "Living", 10⟩],
    budget_categories := [⟨12, "Rent", 11, 100000⟩],
    payees := [⟨13, "Landlord", 2⟩, ⟨16, "Someone", 1⟩],
    transactions := [⟨14, 1000, 13, 12, 0⟩, ⟨15, 550, 13, 12, 0⟩,
      ⟨17, 500, 16, 12, 0⟩],
    nextId := 18 }

/-- A store where user 1 has a January 2024 budget with group `Living`
and category `Rent` (limit 1000.00), and no February budget yet. -/
def exStoreJan : Store :=
  { budgets := [⟨10, "JAN", 2024, 1⟩],
    budget_category_groups := [⟨11, "Living", 10⟩],
    budget_categories := [⟨12, "Rent", 11, 100000⟩],
    payees := [], transactions := [], nextId := 13 }

/-- The store after the target get-or-create of
`copy_budget exStoreJan 2024 "FEB" 1 none`. -/
def exStoreJanT : Store :=
  { budgets := [⟨10, "JAN", 2024, 1⟩, ⟨13, "FEB", 2024, 1⟩],
    budget_category_groups := [⟨11, "Living", 10⟩],
    budget_categories := [⟨12, "Rent", 11, 100000⟩],
    payees := [], transactions := [], nextId := 14 }

/-- The store produced by `copy_budget exStoreJan 2024 "FEB" 1 none`. -/
def exStoreFeb : Store := okOr exStoreJan (copy_budget exStoreJan 2024 "FEB" 1 none)

/-- A store where user 1 has a February 2024 budget with one group and
one category, and no January 2024 budget that could act as a previous
month. -/
def exStoreNoPrev : Store :=
  { budgets := [⟨10, "FEB", 2024, 1⟩],
    budget_category_groups := [⟨11, "Old", 10⟩],
    budget_categories := [⟨12, "X", 11, 100⟩],
    payees := [], transactions := [], nextId := 13 }

/-! ### Store invariants -/

/-- Well-formedness of a reachable store: the `unique_together`
constraints declared in `budapp/models.py` (budgets unique on
(owner, month, year), groups unique on (name, budget)), the category
uniqueness within a group enforced by `BudgetCategorySerializer`,
distinct primary keys per table, and freshness of the `nextId` counter
relative to every key stored or referenced. -/
structure WF (s : Store) : Prop where
  bu_key : s.budgets.Pairwise fun a b =>
    ¬ (a.owner = b.owner ∧ a.month = b.month ∧ a.year = b.year)
  bu_id : s.budgets.Pairwise fun a b => a.id ≠ b.id
  gr_key : s.budget_category_groups.Pairwise fun a b =>
    ¬ (a.budget = b.budget ∧ a.name = b.name)
  gr_id : s.budget_category_groups.Pairwise fun a b => a.id ≠ b.id
  ca_key : s.budget_categories.Pairwise fun a b =>
    ¬ (a.group = b.group ∧ a.category = b.category)
  ca_id : s.budget_categories.Pairwise fun a b => a.id ≠ b.id
  bu_lt : ∀ b ∈ s.budgets, b.id < s.nextId
  gr_lt : ∀ g ∈ s.budget_category_groups, g.id < s.nextId
  ca_lt : ∀ c ∈ s.budget_categories, c.id < s.nextId
  gr_ref : ∀ g ∈ s.budget_category_groups, g.budget < s.nextId
  ca_ref : ∀ c ∈ s.budget_categories, c.group < s.nextId

/-- Relation between the store at the start of a category copy and the
store while the copy runs: budgets, payees and transactions are
untouched; group and category tables only gain rows; every appended
group belongs to the target budget; and every appended category sits in
a target-owned group named after a source group and carries the name
and limit of a category of that source group. -/
structure CInv (s0 : Store) (tid sbid : Nat) (st : Store) : Prop where
  budgets_eq : st.budgets = s0.budgets
  payees_eq : st.payees = s0.payees
  txns_eq : st.transactions = s0.transactions
  groups_ext : ∃ l, st.budget_category_groups = s0.budget_category_groups ++ l ∧
    ∀ g ∈ l, g.budget = tid
  cats_ext : ∃ l, st.budget_categories = s0.budget_categories ++ l ∧
    ∀ c ∈ l, ∃ g0 ∈ groupsOf s0 sbid, ∃ c0 ∈ categoriesOf s0 g0.id,
      ∃ tg ∈ st.budget_category_groups, c.group = tg.id ∧ tg.budget = tid ∧
        tg.name = g0.name ∧ c.category = c0.category ∧ c.limit = c0.limit
  nid_mono : s0.nextId ≤ st.nextId

end Budapp

namespace Budapp

/-! ### Generic list lemmas -/

theorem pairwise_eq_of_not {α : Type} {R : α → α → Prop} :
    ∀ {l : List α}, l.Pairwise R → ∀ {a b : α}, a ∈ l → b ∈ l →
      ¬ R a b → ¬ R b a → a = b := by
  intro l hl
  induction hl with
  | nil => intro a b ha _ _ _; exact absurd ha (List.not_mem_nil a)
  | cons hx _ ih =>
    intro a b ha hb hab hba
    rcases List.mem_cons.1 ha with ha' | ha' <;> rcases List.mem_cons.1 hb with hb' | hb'
    · exact ha'.trans hb'.symm
    · exact absurd (ha' ▸ hx b hb') hab
    · exact absurd (hb' ▸ hx a ha') hba
    · exact ih ha' hb' hab hba

theorem length_le_one_of_pairwise {α : Type} {R : α → α → Prop} :
    ∀ {l : List α}, l.Pairwise R → (∀ a ∈ l, ∀ b ∈ l, ¬ R a b) → l.length ≤ 1 := by
  intro l
  match l with
  | [] => intro _ _; simp
  | [a] => intro _ _; simp
  | a :: b :: t =>
    intro h hall
    exact absurd (List.rel_of_pairwise_cons h (by simp))
      (hall a (by simp) b (by simp))

theorem map_id_of {α : Type} {f : α → α} :
    ∀ {l : List α}, (∀ a ∈ l, f a = a) → l.map f = l := by
  intro l
  induction l with
  | nil => intro _; rfl
  | cons x xs ih =>
    intro h
    simp only [List.map_cons, h x (by simp), ih fun a ha => h a (List.mem_cons_of_mem x ha)]

theorem find_some_of_mem {α : Type} {p : α → Bool} :
    ∀ {l : List α} {a : α}, a ∈ l → p a = true → ∃ b, l.find? p = some b := by
  intro l
  induction l with
  | nil => intro a ha _; exact absurd ha (List.not_mem_nil a)
  | cons x xs ih =>
    intro a ha hp
    by_cases hx : p x = true
    · exact ⟨x, List.find?_cons_of_pos _ hx⟩
    · rcases List.mem_cons.1 ha with ha' | ha'
      · exact absurd (ha' ▸ hp) hx
      · obtain ⟨b, hb⟩ := ih ha' hp
        exact ⟨b, (List.find?_cons_of_neg _ (by simpa using hx)).trans hb⟩

end Budapp

namespace Budapp

/-! ### C3: previous-month computation -/

/-- C3: for every month index m in 0..11 and every year y,
`get_previous_month` returns (11, y-1) when m = 0 and (m-1, y)
otherwise. -/
theorem claim_C3_get_previous_month (m y : Int) (h0 : 0 ≤ m) (h1 : m ≤ 11) :
    get_previous_month m y = if m = 0 then (11, y - 1) else (m - 1, y) := by
  unfold get_previous_month
  by_cases hm : m = 0
  · subst hm; norm_num
  · have hlt : ¬ (m - 1 < 0) := by omega
    simp [hlt, hm]

/-- Witness for C3 at the wrap-around month and at an interior month. -/
theorem claim_C3_witness :
    get_previous_month 0 2024 = (11, 2023) ∧ get_previous_month 5 2024 = (4, 2024) := by
  have h0 := claim_C3_get_previous_month 0 2024 (by norm_num) (by norm_num)
  have h5 := claim_C3_get_previous_month 5 2024 (by norm_num) (by norm_num)
  norm_num at h0 h5
  exact ⟨h0, h5⟩

/-! ### C5: foreign-owned explicit source is rejected without mutation -/

/-- C5: a copy-budget request whose explicit source budget is owned by a
user other than the requester fails with the ownership error raised by
`CopyBudgetSerializer.validate_source`, and the store is unchanged. -/
theorem claim_C5_source_ownership (s : Store) (u : Nat) (ty : Int) (tm : String)
    (pk : Nat) (sb : Budget)
    (hfind : s.budgets.find? (fun b => b.id == pk) = some sb)
    (hown : sb.owner ≠ u) :
    copy_budget_action s u ty tm (some pk) =
      Except.error "You cannot copy another users budget." ∧
    okOr s (copy_budget_action s u ty tm (some pk)) = s := by
  have h : copy_budget_action s u ty tm (some pk) =
      Except.error "You cannot copy another users budget." := by
    simp [copy_budget_action, hfind, hown]
  exact ⟨h, by rw [h]; rfl⟩

/-- Witness for C5: user 1 names the budget of user 2 as source. -/
theorem claim_C5_witness :
    copy_budget_action exStoreB 1 2024 "FEB" (some 10) =
      Except.error "You cannot copy another users budget." ∧
    okOr exStoreB (copy_budget_action exStoreB 1 2024 "FEB" (some 10)) = exStoreB :=
  claim_C5_source_ownership exStoreB 1 2024 "FEB" 10 ⟨10, "JAN", 2024, 2⟩
    (by decide) (by decide)

/-! ### C6: the spent aggregation -/

/-- C6: `spent` is the exact sum, in cents, of the amounts of the
transactions attached to the category; it is exactly 0 when there are
none, and 10.00 + 5.50 yields exactly 15.50 (1000 + 550 = 1550). -/
theorem claim_C6_spent (s : Store) (pk : Nat) :
    spent s pk =
      ((s.transactions.filter fun t => t.budget_category == pk).map
        fun t => t.amount).sum ∧
    ((s.transactions.filter fun t => t.budget_category == pk) = [] →
      spent s pk = 0) ∧
    (((s.transactions.filter fun t => t.budget_category == pk).map
        fun t => t.amount) = [1000, 550] → spent s pk = 1550) := by
  refine ⟨?_, ?_, ?_⟩
  · cases h : s.transactions.filter fun t => t.budget_category == pk with
    | nil => simp [spent, h]
    | cons x xs => simp [spent, h]
  · intro h
    simp [spent, h]
  · intro hm
    cases h : s.transactions.filter fun t => t.budget_category == pk with
    | nil => rw [h] at hm; simp at hm
    | cons x xs =>
        have hx : spent s pk = ((x :: xs).map fun t => t.amount).sum := by
          simp [spent, h]
        rw [h] at hm
        rw [hx, hm]
        norm_num

/-- Witness for C6: the category with two transactions sums to 1550
cents, and a category with no transactions sums to 0. -/
theorem claim_C6_witness : spent exStoreFull 12 = 1550 ∧ spent exStoreFull 99 = 0 := by
  refine ⟨(claim_C6_spent exStoreFull 12).2.2 (by decide),
          (claim_C6_spent exStoreFull 99).2.1 (by decide)⟩

end Budapp

namespace Budapp

/-! ### C7: budget uniqueness under get-or-create -/

/-- C7: when the budgets are unique on (owner, month, year) — the
`unique_together` constraint of `Budget.Meta` — the get-or-create used
by `copy_budget` preserves that uniqueness, leaves exactly one row
matching the requested triple, and resolves to the existing row without
touching the store whenever one exists. -/
theorem claim_C7_budget_uniqueness (s : Store) (m : String) (y : Int) (u : Nat)
    (hkey : s.budgets.Pairwise fun a b =>
      ¬ (a.owner = b.owner ∧ a.month = b.month ∧ a.year = b.year)) :
    ((budgetGetOrCreate s m y u).2.budgets.Pairwise fun a b =>
      ¬ (a.owner = b.owner ∧ a.month = b.month ∧ a.year = b.year)) ∧
    ((budgetGetOrCreate s m y u).2.budgets.filter (budgetKey u m y)).length = 1 ∧
    (∀ b ∈ s.budgets, budgetKey u m y b = true → budgetGetOrCreate s m y u = (b, s)) := by
  cases hf : s.budgets.find? (budgetKey u m y) with
  | some b0 =>
      have hr : budgetGetOrCreate s m y u = (b0, s) := by
        simp [budgetGetOrCreate, hf]
      have hr2 : (budgetGetOrCreate s m y u).2 = s := by rw [hr]
      have hb0mem : b0 ∈ s.budgets := List.mem_of_find?_eq_some hf
      have hb0key : budgetKey u m y b0 = true := List.find?_some hf
      obtain ⟨ho0, hm0, hy0⟩ : b0.owner = u ∧ b0.month = m ∧ b0.year = y := by
        have := hb0key
        simp only [budgetKey, Bool.and_eq_true, beq_iff_eq] at this
        exact ⟨this.1.1, this.1.2, this.2⟩
      refine ⟨by rw [hr2]; exact hkey, ?_, ?_⟩
      · rw [hr2]
        have hsub : (s.budgets.filter (budgetKey u m y)).Pairwise fun a b =>
            ¬ (a.owner = b.owner ∧ a.month = b.month ∧ a.year = b.year) :=
          hkey.sublist (List.filter_sublist s.budgets)
        have hall : ∀ a ∈ s.budgets.filter (budgetKey u m y),
            ∀ b ∈ s.budgets.filter (budgetKey u m y),
            ¬ ¬ (a.owner = b.owner ∧ a.month = b.month ∧ a.year = b.year) := by
          intro a ha b hb
          have hak := (List.mem_filter.1 ha).2
          have hbk := (List.mem_filter.1 hb).2
          simp only [budgetKey, Bool.and_eq_true, beq_iff_eq] at hak hbk
          exact not_not_intro ⟨hak.1.1.trans hbk.1.1.symm,
            hak.1.2.trans hbk.1.2.symm, hak.2.trans hbk.2.symm⟩
        have hle := length_le_one_of_pairwise hsub hall
        have hpos : 0 < (s.budgets.filter (budgetKey u m y)).length :=
          List.length_pos_of_mem (List.mem_filter.2 ⟨hb0mem, hb0key⟩)
        omega
      · intro b hb hbkey
        have : b = b0 := by
          refine pairwise_eq_of_not hkey hb hb0mem ?_ ?_
          · simp only [budgetKey, Bool.and_eq_true, beq_iff_eq] at hbkey
            exact not_not_intro ⟨hbkey.1.1.trans ho0.symm,
              hbkey.1.2.trans hm0.symm, hbkey.2.trans hy0.symm⟩
          · simp only [budgetKey, Bool.and_eq_true, beq_iff_eq] at hbkey
            exact not_not_intro ⟨ho0.trans hbkey.1.1.symm,
              hm0.trans hbkey.1.2.symm, hy0.trans hbkey.2.symm⟩
        rw [this, hr]
  | none =>
      have hnone : ∀ b ∈ s.budgets, ¬ budgetKey u m y b = true :=
        List.find?_eq_none.1 hf
      have hr2 : (budgetGetOrCreate s m y u).2.budgets =
          s.budgets ++ [⟨s.nextId, m, y, u⟩] := by
        simp [budgetGetOrCreate, hf]
      have hnewkey : budgetKey u m y ⟨s.nextId, m, y, u⟩ = true := by
        simp [budgetKey]
      refine ⟨?_, ?_, ?_⟩
      · rw [hr2]
        refine List.pairwise_append.2 ⟨hkey, by simp, ?_⟩
        intro a ha b hb
        rcases List.mem_singleton.1 hb with rfl
        intro hcon
        apply hnone a ha
        simp only [budgetKey, Bool.and_eq_true, beq_iff_eq]
        exact ⟨⟨hcon.1, hcon.2.1⟩, hcon.2.2⟩
      · rw [hr2]
        have h1 : s.budgets.filter (budgetKey u m y) = [] :=
          List.filter_eq_nil_iff.2 hnone
        simp [List.filter_append, h1, hnewkey]
      · intro b hb hbkey
        exact absurd hbkey (hnone b hb)

/-- Witness for C7: the triple (2, JAN, 2024) already has a row, and
get-or-create returns it without change. -/
theorem claim_C7_witness :
    budgetGetOrCreate exStoreB "JAN" 2024 2 = (⟨10, "JAN", 2024, 2⟩, exStoreB) ∧
    ((budgetGetOrCreate exStoreB "JAN" 2024 2).2.budgets.filter
      (budgetKey 2 "JAN" 2024)).length = 1 := by
  have h := claim_C7_budget_uniqueness exStoreB "JAN" 2024 2 (by decide)
  exact ⟨h.2.2 ⟨10, "JAN", 2024, 2⟩ (by decide) (by decide), h.2.1⟩

end Budapp

namespace Budapp

/-! ### C8: ownership scoping of the querysets -/

/-- C8 counterexample, in two parts at explicit inputs.  First, the
queryset filtering of `app/views.py` has no administrator branch —
`OwnershipFilterMixin.get_queryset` and every override filter by
`owner == request.user` unconditionally — so an administrator
(`is_staff = true`) requesting the budget list does not see the budget
of user 2, refuting the claimed administrator exemption.  Second, write
operations are not owner-scoped: `TransactionSerializer.budget_category`
resolves against the unrestricted `BudgetCategory.objects.all()`
queryset, so non-admin user 1 successfully creates transaction 17
attached to category 12, whose derived owner (category 12 → group 11 →
budget 10) is user 2, not the caller. -/
theorem claim_C8_counterexample :
    ((⟨1, true⟩ : Requester).is_staff = true ∧
     (⟨10, "JAN", 2024, 2⟩ : Budget) ∈ exStoreB.budgets ∧
     (⟨10, "JAN", 2024, 2⟩ : Budget) ∉ budget_get_queryset exStoreB ⟨1, true⟩) ∧
    ((⟨1, false⟩ : Requester).is_staff = false ∧
     transaction_create exStoreFull 1 500 12 0 "Someone" =
       Except.ok (⟨17, 500, 16, 12, 0⟩, exStoreWrite) ∧
     (⟨17, 500, 16, 12, 0⟩ : Transaction) ∈ exStoreWrite.transactions ∧
     (⟨17, 500, 16, 12, 0⟩ : Transaction).budget_category = 12 ∧
     (⟨12, "Rent", 11, 100000⟩ : BudgetCategory) ∈ exStoreWrite.budget_categories ∧
     (⟨12, "Rent", 11, 100000⟩ : BudgetCategory).group = 11 ∧
     (⟨11, "Living", 10⟩ : BudgetCategoryGroup) ∈ exStoreWrite.budget_category_groups ∧
     (⟨11, "Living", 10⟩ : BudgetCategoryGroup).budget = 10 ∧
     (⟨10, "JAN", 2024, 2⟩ : Budget) ∈ exStoreWrite.budgets ∧
     (⟨10, "JAN", 2024, 2⟩ : Budget).owner ≠ 1) := by
  refine ⟨by decide, by decide, rfl, by decide, by decide, by decide,
    by decide, by decide, by decide, by decide, by decide⟩

/-- C8 amended: every list/read result set contains only entities whose
direct or derived owner is the authenticated caller, for every caller —
administrators included, the queryset filtering granting administrators
no wider result sets; write operations, by contrast, validate related
references only for existence against unrestricted querysets, so a
successful transaction create stores exactly the requested category
reference whether or not its derived owner is the caller. -/
theorem claim_C8_ownership_filter (s : Store) (r : Requester) :
    (∀ b ∈ budget_get_queryset s r, b.owner = r.id) ∧
    (∀ g ∈ group_get_queryset s r, ∃ b ∈ s.budgets, b.id = g.budget ∧ b.owner = r.id) ∧
    (∀ c ∈ category_get_queryset s r, ∃ g ∈ s.budget_category_groups,
      g.id = c.group ∧ ∃ b ∈ s.budgets, b.id = g.budget ∧ b.owner = r.id) ∧
    (∀ t ∈ transaction_get_queryset s r, ∃ c ∈ s.budget_categories,
      c.id = t.budget_category ∧ ∃ g ∈ s.budget_category_groups,
      g.id = c.group ∧ ∃ b ∈ s.budgets, b.id = g.budget ∧ b.owner = r.id) ∧
    (∀ p ∈ payee_get_queryset s r, p.owner = r.id) ∧
    (∀ (amount : Int) (pk : Nat) (date : Int) (pname : String)
        (t : Transaction) (s' : Store),
      transaction_create s r.id amount pk date pname = Except.ok (t, s') →
      t.budget_category = pk ∧ ∃ c ∈ s.budget_categories, c.id = pk) := by
  refine ⟨?_, ?_, ?_, ?_, ?_, ?_⟩
  · intro b hb
    have := (List.mem_filter.1 hb).2
    simpa using this
  · intro g hg
    have := (List.mem_filter.1 hg).2
    simp only [List.any_eq_true, Bool.and_eq_true, beq_iff_eq] at this
    obtain ⟨b, hb, h1, h2⟩ := this
    exact ⟨b, hb, h1, h2⟩
  · intro c hc
    have := (List.mem_filter.1 hc).2
    simp only [List.any_eq_true, Bool.and_eq_true, beq_iff_eq] at this
    obtain ⟨g, hg, h1, b, hb, h2, h3⟩ := this
    exact ⟨g, hg, h1, b, hb, h2, h3⟩
  · intro t ht
    have := (List.mem_filter.1 ht).2
    simp only [List.any_eq_true, Bool.and_eq_true, beq_iff_eq] at this
    obtain ⟨c, hc, h1, g, hg, h2, b, hb, h3, h4⟩ := this
    exact ⟨c, hc, h1, g, hg, h2, b, hb, h3, h4⟩
  · intro p hp
    have := (List.mem_filter.1 hp).2
    simpa using this
  · intro amount pk date pname t s' h
    cases hf : s.budget_categories.find? (fun c => c.id == pk) with
    | none => simp [transaction_create, hf] at h
    | some c =>
        have hcpk : c.id = pk := by simpa using List.find?_some hf
        have hcm : c ∈ s.budget_categories := List.mem_of_find?_eq_some hf
        simp only [transaction_create, hf, Except.ok.injEq, Prod.mk.injEq] at h
        obtain ⟨ht, -⟩ := h
        subst ht
        exact ⟨hcpk, c, hcm, hcpk⟩

/-- Witness for C8: user 2 sees exactly their own chain in each
queryset of the fully populated store, and the write clause applied to
the concrete foreign-category create of user 1 yields the stored
reference to category 12. -/
theorem claim_C8_witness :
    (⟨10, "JAN", 2024, 2⟩ : Budget) ∈ budget_get_queryset exStoreFull ⟨2, false⟩ ∧
    (⟨10, "JAN", 2024, 2⟩ : Budget).owner = 2 ∧
    (⟨14, 1000, 13, 12, 0⟩ : Transaction) ∈ transaction_get_queryset exStoreFull ⟨2, false⟩ ∧
    (⟨17, 500, 16, 12, 0⟩ : Transaction).budget_category = 12 := by
  refine ⟨by decide, ?_, by decide, ?_⟩
  · exact (claim_C8_ownership_filter exStoreFull ⟨2, false⟩).1 ⟨10, "JAN", 2024, 2⟩ (by decide)
  · exact ((claim_C8_ownership_filter exStoreFull ⟨1, false⟩).2.2.2.2.2
      500 12 0 "Someone" ⟨17, 500, 16, 12, 0⟩ exStoreWrite rfl).1

/-! ### C9: transaction update is a no-op on the stored row -/

/-- Rewriting a stored row by its own value is the identity on a table
with distinct primary keys. -/
theorem map_update_id :
    ∀ (l : List Transaction) (t : Transaction), t ∈ l →
      (l.Pairwise fun a b => a.id ≠ b.id) →
      (l.map fun x => if x.id == t.id then t else x) = l := by
  intro l
  induction l with
  | nil => intro t ht _; exact absurd ht (List.not_mem_nil t)
  | cons x xs ih =>
      intro t ht hid
      rcases List.mem_cons.1 ht with h | h
      · subst h
        simp only [List.map_cons, ite_self]
        congr 1
        apply map_id_of
        intro a ha
        have hne : t.id ≠ a.id := List.rel_of_pairwise_cons hid ha
        rw [if_neg (by simpa using (Ne.symm hne))]
      · have hne : x.id ≠ t.id := List.rel_of_pairwise_cons hid h
        simp only [List.map_cons]
        rw [if_neg (by simpa using hne), ih t h (List.Pairwise.of_cons hid)]

/-- C9: `TransactionSerializer.update` never assigns the validated data
to the instance: the stored amount, budget_category and date are
unchanged, the transaction table (and every other table except payees)
is exactly as before, and the only other store effect is the possible
get-or-create of a payee with the submitted name owned by the
requester. -/
theorem claim_C9_update_frame (s : Store) (u : Nat) (tr : Transaction)
    (payload : TxnPayload) (htr : tr ∈ s.transactions)
    (hid : s.transactions.Pairwise fun a b => a.id ≠ b.id) :
    (transaction_update s u tr payload).1.amount = tr.amount ∧
    (transaction_update s u tr payload).1.budget_category = tr.budget_category ∧
    (transaction_update s u tr payload).1.date = tr.date ∧
    (transaction_update s u tr payload).2.transactions = s.transactions ∧
    (transaction_update s u tr payload).2.budgets = s.budgets ∧
    (transaction_update s u tr payload).2.budget_category_groups =
      s.budget_category_groups ∧
    (transaction_update s u tr payload).2.budget_categories = s.budget_categories ∧
    ((transaction_update s u tr payload).2.payees = s.payees ∨
      ∃ p : Payee, (transaction_update s u tr payload).2.payees = s.payees ++ [p] ∧
        p.name = payload.payee ∧ p.owner = u) := by
  have hmap := map_update_id s.transactions tr htr hid
  cases hp : s.payees.find? fun p => p.name == payload.payee && p.owner == u with
  | some p0 =>
      have h2 : (transaction_update s u tr payload).2 = saveTransaction s tr := by
        simp [transaction_update, payeeGetOrCreate, hp]
      refine ⟨rfl, rfl, rfl, ?_, ?_, ?_, ?_, ?_⟩ <;> rw [h2]
      · exact hmap
      · rfl
      · rfl
      · rfl
      · exact Or.inl rfl
  | none =>
      have h2 : (transaction_update s u tr payload).2 =
          saveTransaction { s with payees := s.payees ++ [⟨s.nextId, payload.payee, u⟩], nextId := s.nextId + 1 } tr := by
        simp [transaction_update, payeeGetOrCreate, hp]
      refine ⟨rfl, rfl, rfl, ?_, ?_, ?_, ?_, ?_⟩ <;> rw [h2]
      · exact hmap
      · rfl
      · rfl
      · rfl
      · exact Or.inr ⟨⟨s.nextId, payload.payee, u⟩, rfl, rfl, rfl⟩

/-- Witness for C9: updating the stored transaction of amount 10.00
with a payload that tries to change every field leaves the row intact
and at most creates the submitted payee. -/
theorem claim_C9_witness :
    (transaction_update exStoreFull 2 ⟨14, 1000, 13, 12, 0⟩
      ⟨9999, 7, 42, "Someone"⟩).1.amount = 1000 ∧
    (transaction_update exStoreFull 2 ⟨14, 1000, 13, 12, 0⟩
      ⟨9999, 7, 42, "Someone"⟩).2.transactions = exStoreFull.transactions := by
  have h := claim_C9_update_frame exStoreFull 2 ⟨14, 1000, 13, 12, 0⟩
    ⟨9999, 7, 42, "Someone"⟩ (by decide) (by decide)
  exact ⟨h.1, h.2.2.2.1⟩

/-! ### C10: payee creation forces the requester as owner -/

/-- C10: every payee created through `PayeeViewSet.perform_create` is
owned by the requesting user, whatever owner value the payload carried
(the serializer exposes only `pk` and `name`), and no payee owned by
anyone else is added to the store. -/
theorem claim_C10_payee_owner (s : Store) (u : Nat) (name : String)
    (submitted : Option Nat) (p : Payee) (s' : Store)
    (h : payee_create s u name submitted = Except.ok (p, s')) :
    p.owner = u ∧ s'.payees = s.payees ++ [p] ∧
    ∀ q ∈ s'.payees, q ∈ s.payees ∨ q.owner = u := by
  by_cases hex : (s.payees.any fun q => q.name == name && q.owner == u) = true
  · simp [payee_create, hex] at h
  · simp only [payee_create, hex, Bool.false_eq_true, if_false, Except.ok.injEq,
      Prod.mk.injEq] at h
    obtain ⟨hp, hs⟩ := h
    subst hp
    subst hs
    refine ⟨rfl, rfl, ?_⟩
    intro q hq
    rcases List.mem_append.1 hq with h | h
    · exact Or.inl h
    · rcases List.mem_singleton.1 h with rfl
      exact Or.inr rfl

/-- Witness for C10: user 2 creates a payee while the payload claims
owner 9; the stored payee is owned by 2. -/
theorem claim_C10_witness :
    payee_create exStoreFull 2 "Grocer" (some 9) =
      Except.ok (⟨16, "Grocer", 2⟩,
        { exStoreFull with payees := exStoreFull.payees ++ [⟨16, "Grocer", 2⟩], nextId := 17 }) ∧
    (⟨16, "Grocer", 2⟩ : Payee).owner = 2 := by
  refine ⟨by rfl, ?_⟩
  exact (claim_C10_payee_owner exStoreFull 2 "Grocer" (some 9) ⟨16, "Grocer", 2⟩
    { exStoreFull with payees := exStoreFull.payees ++ [⟨16, "Grocer", 2⟩], nextId := 17 }
    (by rfl)).1

end Budapp

namespace Budapp

/-! ### Basic facts about the store operations -/

theorem store_eq_of_fields {s1 s2 : Store}
    (h1 : s1.budgets = s2.budgets)
    (h2 : s1.budget_category_groups = s2.budget_category_groups)
    (h3 : s1.budget_categories = s2.budget_categories)
    (h4 : s1.payees = s2.payees)
    (h5 : s1.transactions = s2.transactions)
    (h6 : s1.nextId = s2.nextId) : s1 = s2 := by
  cases s1; cases s2; simp_all

theorem foldl_fixed {α β : Type} (f : α → β → α) (a : α) :
    ∀ (l : List β), (∀ b ∈ l, f a b = a) → l.foldl f a = a := by
  intro l
  induction l with
  | nil => intro _; rfl
  | cons x xs ih =>
      intro h
      rw [List.foldl_cons, h x (by simp)]
      exact ih fun b hb => h b (List.mem_cons_of_mem x hb)

theorem findGroup_mem {st : Store} {bid : Nat} {name : String}
    {g : BudgetCategoryGroup} (h : findGroup st bid name = some g) :
    g ∈ st.budget_category_groups ∧ g.budget = bid ∧ g.name = name := by
  unfold findGroup at h
  refine ⟨List.mem_of_find?_eq_some h, ?_⟩
  have hp := List.find?_some h
  simp only [Bool.and_eq_true, beq_iff_eq] at hp
  exact hp

theorem findCat_mem {st : Store} {gid : Nat} {name : String}
    {c : BudgetCategory} (h : findCat st gid name = some c) :
    c ∈ st.budget_categories ∧ c.group = gid ∧ c.category = name := by
  unfold findCat at h
  refine ⟨List.mem_of_find?_eq_some h, ?_⟩
  have hp := List.find?_some h
  simp only [Bool.and_eq_true, beq_iff_eq] at hp
  exact hp

theorem findGroup_none {st : Store} {bid : Nat} {name : String}
    (h : findGroup st bid name = none) :
    ∀ g ∈ st.budget_category_groups, ¬ (g.budget = bid ∧ g.name = name) := by
  unfold findGroup at h
  intro g hg hc
  apply List.find?_eq_none.1 h g hg
  simp [hc.1, hc.2]

theorem findCat_none {st : Store} {gid : Nat} {name : String}
    (h : findCat st gid name = none) :
    ∀ c ∈ st.budget_categories, ¬ (c.group = gid ∧ c.category = name) := by
  unfold findCat at h
  intro c hc hcon
  apply List.find?_eq_none.1 h c hc
  simp [hcon.1, hcon.2]

theorem findGroup_mono {st st' : Store} (bid : Nat) (name : String)
    (hext : ∃ l, st'.budget_category_groups = st.budget_category_groups ++ l)
    {tg : BudgetCategoryGroup} (h : findGroup st bid name = some tg) :
    findGroup st' bid name = some tg := by
  obtain ⟨l, hl⟩ := hext
  unfold findGroup at h ⊢
  rw [hl, List.find?_append, h]
  rfl

theorem findCat_mono {st st' : Store} (gid : Nat) (name : String)
    (hext : ∃ l, st'.budget_categories = st.budget_categories ++ l)
    {tc : BudgetCategory} (h : findCat st gid name = some tc) :
    findCat st' gid name = some tc := by
  obtain ⟨l, hl⟩ := hext
  unfold findCat at h ⊢
  rw [hl, List.find?_append, h]
  rfl

theorem findGroup_congr {st st' : Store} (bid : Nat) (name : String)
    (h : st'.budget_category_groups = st.budget_category_groups) :
    findGroup st' bid name = findGroup st bid name := by
  unfold findGroup
  rw [h]

theorem previous_congr (s s' : Store) (b : Budget) (h : s'.budgets = s.budgets) :
    previous s' b = previous s b := by
  unfold previous
  cases MONTH_LOOKUP b.month with
  | none => rfl
  | some idx => simp [h]

theorem CInv_refl (s0 : Store) (tid sbid : Nat) : CInv s0 tid sbid s0 :=
  ⟨rfl, rfl, rfl, ⟨[], by simp⟩,
   ⟨[], by simp, fun c hc => absurd hc (List.not_mem_nil c)⟩, le_refl _⟩

theorem CInv_wf_src {s0 : Store} {tid sbid : Nat} {st : Store}
    (hwf : WF st) (hinv : CInv s0 tid sbid st) :
    (s0.budget_category_groups.Pairwise fun a b =>
      ¬ (a.budget = b.budget ∧ a.name = b.name)) ∧
    (s0.budget_categories.Pairwise fun a b =>
      ¬ (a.group = b.group ∧ a.category = b.category)) := by
  obtain ⟨lg, hlg, -⟩ := hinv.groups_ext
  obtain ⟨lc, hlc, -⟩ := hinv.cats_ext
  constructor
  · have h := hwf.gr_key
    rw [hlg] at h
    exact (List.pairwise_append.1 h).1
  · have h := hwf.ca_key
    rw [hlc] at h
    exact (List.pairwise_append.1 h).1

/-! ### Facts about delete_categories -/

theorem delete_categories_fields (s : Store) (t : Budget) :
    (delete_categories s t).budgets = s.budgets ∧
    (delete_categories s t).payees = s.payees ∧
    (delete_categories s t).nextId = s.nextId ∧
    (delete_categories s t).budget_category_groups =
      s.budget_category_groups.filter (fun g => !(g.budget == t.id)) :=
  ⟨rfl, rfl, rfl, rfl⟩

theorem delete_categories_groups (s : Store) (t : Budget) :
    groupsOf (delete_categories s t) t.id = [] := by
  unfold groupsOf
  rw [(delete_categories_fields s t).2.2.2]
  refine List.filter_eq_nil_iff.2 ?_
  intro g hg
  have hp := (List.mem_filter.1 hg).2
  simp only [Bool.not_eq_true'] at hp
  simp [hp]

theorem delete_twice (s : Store) (t : Budget) :
    delete_categories (delete_categories s t) t = delete_categories s t := by
  have hDg : (delete_categories s t).budget_category_groups =
      s.budget_category_groups.filter (fun g => !(g.budget == t.id)) := rfl
  have h1 : (delete_categories s t).budget_category_groups.filter
      (fun g => g.budget == t.id) = [] := by
    rw [hDg]
    refine List.filter_eq_nil_iff.2 ?_
    intro g hg
    have hp := (List.mem_filter.1 hg).2
    simp only [Bool.not_eq_true'] at hp
    simp [hp]
  have hgroups : (delete_categories (delete_categories s t) t).budget_category_groups =
      (delete_categories s t).budget_category_groups := by
    rw [show (delete_categories (delete_categories s t) t).budget_category_groups =
      (delete_categories s t).budget_category_groups.filter (fun g => !(g.budget == t.id)) from rfl]
    refine List.filter_eq_self.2 ?_
    intro g hg
    rw [hDg] at hg
    exact (List.mem_filter.1 hg).2
  have hcats : (delete_categories (delete_categories s t) t).budget_categories =
      (delete_categories s t).budget_categories := by
    rw [show (delete_categories (delete_categories s t) t).budget_categories =
      (delete_categories s t).budget_categories.filter
        (fun c => !((((delete_categories s t).budget_category_groups.filter
          (fun g => g.budget == t.id)).map (fun g => g.id)).contains c.group)) from rfl]
    rw [h1]
    refine List.filter_eq_self.2 ?_
    intro c _
    rfl
  have htxns : (delete_categories (delete_categories s t) t).transactions =
      (delete_categories s t).transactions := by
    rw [show (delete_categories (delete_categories s t) t).transactions =
      (delete_categories s t).transactions.filter
        (fun x => !(((((delete_categories s t).budget_categories.filter
          (fun c => (((delete_categories s t).budget_category_groups.filter
            (fun g => g.budget == t.id)).map (fun g => g.id)).contains c.group)).map
              (fun c => c.id))).contains x.budget_category)) from rfl]
    rw [h1]
    have hc : (delete_categories s t).budget_categories.filter
        (fun c => ((([] : List BudgetCategoryGroup).map (fun g => g.id)).contains c.group)) = [] := by
      refine List.filter_eq_nil_iff.2 ?_
      intro c _
      simp
    rw [hc]
    refine List.filter_eq_self.2 ?_
    intro x _
    rfl
  exact store_eq_of_fields rfl hgroups hcats rfl htxns rfl

/-! ### Facts about the budget get-or-create -/

theorem budgetGOC_found (s : Store) (m : String) (y : Int) (u : Nat) :
    (budgetGetOrCreate s m y u).2.budgets.find? (budgetKey u m y) =
      some (budgetGetOrCreate s m y u).1 := by
  cases hf : s.budgets.find? (budgetKey u m y) with
  | some b => simp [budgetGetOrCreate, hf]
  | none =>
      have hk : budgetKey u m y ⟨s.nextId, m, y, u⟩ = true := by simp [budgetKey]
      simp [budgetGetOrCreate, hf, List.find?_append, hk]

theorem budgetGOC_wf (s : Store) (m : String) (y : Int) (u : Nat) (hwf : WF s) :
    WF (budgetGetOrCreate s m y u).2 ∧
    (budgetGetOrCreate s m y u).2.budget_category_groups = s.budget_category_groups ∧
    (budgetGetOrCreate s m y u).2.budget_categories = s.budget_categories ∧
    (budgetGetOrCreate s m y u).2.payees = s.payees ∧
    (budgetGetOrCreate s m y u).2.transactions = s.transactions ∧
    (budgetGetOrCreate s m y u).1 ∈ (budgetGetOrCreate s m y u).2.budgets := by
  cases hf : s.budgets.find? (budgetKey u m y) with
  | some b =>
      have hr2 : (budgetGetOrCreate s m y u).2 = s := by simp [budgetGetOrCreate, hf]
      have hr1 : (budgetGetOrCreate s m y u).1 = b := by simp [budgetGetOrCreate, hf]
      rw [hr2, hr1]
      exact ⟨hwf, rfl, rfl, rfl, rfl, List.mem_of_find?_eq_some hf⟩
  | none =>
      have hb : (budgetGetOrCreate s m y u).2.budgets =
          s.budgets ++ [⟨s.nextId, m, y, u⟩] := by simp [budgetGetOrCreate, hf]
      have hgr : (budgetGetOrCreate s m y u).2.budget_category_groups =
          s.budget_category_groups := by simp [budgetGetOrCreate, hf]
      have hca : (budgetGetOrCreate s m y u).2.budget_categories =
          s.budget_categories := by simp [budgetGetOrCreate, hf]
      have hpa : (budgetGetOrCreate s m y u).2.payees = s.payees := by
        simp [budgetGetOrCreate, hf]
      have htx : (budgetGetOrCreate s m y u).2.transactions = s.transactions := by
        simp [budgetGetOrCreate, hf]
      have hn : (budgetGetOrCreate s m y u).2.nextId = s.nextId + 1 := by
        simp [budgetGetOrCreate, hf]
      have hr1 : (budgetGetOrCreate s m y u).1 = ⟨s.nextId, m, y, u⟩ := by
        simp [budgetGetOrCreate, hf]
      have hnone := List.find?_eq_none.1 hf
      refine ⟨?_, hgr, hca, hpa, htx, ?_⟩
      · refine ⟨?_, ?_, ?_, ?_, ?_, ?_, ?_, ?_, ?_, ?_, ?_⟩
        · rw [hb]
          refine List.pairwise_append.2 ⟨hwf.bu_key, by simp, ?_⟩
          intro a ha b hb'
          rcases List.mem_singleton.1 hb' with rfl
          intro hcon
          apply hnone a ha
          simp only [budgetKey, Bool.and_eq_true, beq_iff_eq]
          exact ⟨⟨hcon.1, hcon.2.1⟩, hcon.2.2⟩
        · rw [hb]
          refine List.pairwise_append.2 ⟨hwf.bu_id, by simp, ?_⟩
          intro a ha b hb'
          rcases List.mem_singleton.1 hb' with rfl
          exact Nat.ne_of_lt (hwf.bu_lt a ha)
        · rw [hgr]; exact hwf.gr_key
        · rw [hgr]; exact hwf.gr_id
        · rw [hca]; exact hwf.ca_key
        · rw [hca]; exact hwf.ca_id
        · rw [hb, hn]
          intro b hb'
          rcases List.mem_append.1 hb' with h | h
          · exact Nat.lt_succ_of_lt (hwf.bu_lt b h)
          · rcases List.mem_singleton.1 h with rfl
            exact Nat.lt_succ_self _
        · rw [hgr, hn]
          exact fun g hg => Nat.lt_succ_of_lt (hwf.gr_lt g hg)
        · rw [hca, hn]
          exact fun c hc => Nat.lt_succ_of_lt (hwf.ca_lt c hc)
        · rw [hgr, hn]
          exact fun g hg => Nat.lt_succ_of_lt (hwf.gr_ref g hg)
        · rw [hca, hn]
          exact fun c hc => Nat.lt_succ_of_lt (hwf.ca_ref c hc)
      · rw [hb, hr1]
        simp

end Budapp

namespace Budapp

/-! ### The group get-or-create step of the rollover copy -/

theorem groupGOC_step (s0 : Store) (t : Budget) (sbid : Nat) (st : Store)
    (name : String) (ht : t ∈ s0.budgets) (hwf : WF st)
    (hinv : CInv s0 t.id sbid st) :
    WF (groupGetOrCreate st t.id name).2 ∧
    CInv s0 t.id sbid (groupGetOrCreate st t.id name).2 ∧
    (groupGetOrCreate st t.id name).2.budgets = st.budgets ∧
    (groupGetOrCreate st t.id name).2.budget_categories = st.budget_categories ∧
    (∃ l, (groupGetOrCreate st t.id name).2.budget_category_groups =
      st.budget_category_groups ++ l) ∧
    findGroup (groupGetOrCreate st t.id name).2 t.id name =
      some (groupGetOrCreate st t.id name).1 ∧
    (groupGetOrCreate st t.id name).1.budget = t.id ∧
    (groupGetOrCreate st t.id name).1.name = name ∧
    (groupGetOrCreate st t.id name).1 ∈
      (groupGetOrCreate st t.id name).2.budget_category_groups := by
  cases hf : findGroup st t.id name with
  | some g =>
      have hr1 : (groupGetOrCreate st t.id name).1 = g := by
        simp [groupGetOrCreate, hf]
      have hr2 : (groupGetOrCreate st t.id name).2 = st := by
        simp [groupGetOrCreate, hf]
      obtain ⟨hmem, hb, hn⟩ := findGroup_mem hf
      rw [hr1, hr2]
      exact ⟨hwf, hinv, rfl, rfl, ⟨[], by simp⟩, hf, hb, hn, hmem⟩
  | none =>
      have hr1 : (groupGetOrCreate st t.id name).1 =
          ⟨st.nextId, name, t.id⟩ := by
        simp [groupGetOrCreate, hf]
      have hgr : (groupGetOrCreate st t.id name).2.budget_category_groups =
          st.budget_category_groups ++ [⟨st.nextId, name, t.id⟩] := by
        simp [groupGetOrCreate, hf]
      have hbu : (groupGetOrCreate st t.id name).2.budgets = st.budgets := by
        simp [groupGetOrCreate, hf]
      have hca : (groupGetOrCreate st t.id name).2.budget_categories =
          st.budget_categories := by
        simp [groupGetOrCreate, hf]
      have hpa : (groupGetOrCreate st t.id name).2.payees = st.payees := by
        simp [groupGetOrCreate, hf]
      have htx : (groupGetOrCreate st t.id name).2.transactions =
          st.transactions := by
        simp [groupGetOrCreate, hf]
      have hn : (groupGetOrCreate st t.id name).2.nextId = st.nextId + 1 := by
        simp [groupGetOrCreate, hf]
      have hnone := findGroup_none hf
      have htid_lt : t.id < st.nextId := by
        refine hwf.bu_lt t ?_
        rw [hinv.budgets_eq]
        exact ht
      refine ⟨?_, ?_, hbu, hca, ⟨[⟨st.nextId, name, t.id⟩], hgr⟩, ?_, ?_, ?_, ?_⟩
      · refine ⟨?_, ?_, ?_, ?_, ?_, ?_, ?_, ?_, ?_, ?_, ?_⟩
        · rw [hbu]; exact hwf.bu_key
        · rw [hbu]; exact hwf.bu_id
        · rw [hgr]
          refine List.pairwise_append.2 ⟨hwf.gr_key, by simp, ?_⟩
          intro a ha b hb
          rcases List.mem_singleton.1 hb with rfl
          intro hcon
          exact hnone a ha ⟨hcon.1, hcon.2⟩
        · rw [hgr]
          refine List.pairwise_append.2 ⟨hwf.gr_id, by simp, ?_⟩
          intro a ha b hb
          rcases List.mem_singleton.1 hb with rfl
          exact Nat.ne_of_lt (hwf.gr_lt a ha)
        · rw [hca]; exact hwf.ca_key
        · rw [hca]; exact hwf.ca_id
        · rw [hbu, hn]
          exact fun b hb => Nat.lt_succ_of_lt (hwf.bu_lt b hb)
        · rw [hgr, hn]
          intro g hg
          rcases List.mem_append.1 hg with h | h
          · exact Nat.lt_succ_of_lt (hwf.gr_lt g h)
          · rcases List.mem_singleton.1 h with rfl
            exact Nat.lt_succ_self _
        · rw [hca, hn]
          exact fun c hc => Nat.lt_succ_of_lt (hwf.ca_lt c hc)
        · rw [hgr, hn]
          intro g hg
          rcases List.mem_append.1 hg with h | h
          · exact Nat.lt_succ_of_lt (hwf.gr_ref g h)
          · rcases List.mem_singleton.1 h with rfl
            exact Nat.lt_succ_of_lt htid_lt
        · rw [hca, hn]
          exact fun c hc => Nat.lt_succ_of_lt (hwf.ca_ref c hc)
      · obtain ⟨lg, hlg, hlgp⟩ := hinv.groups_ext
        obtain ⟨lc, hlc, hlcp⟩ := hinv.cats_ext
        refine ⟨by rw [hbu]; exact hinv.budgets_eq,
                by rw [hpa]; exact hinv.payees_eq,
                by rw [htx]; exact hinv.txns_eq, ?_, ?_, ?_⟩
        · refine ⟨lg ++ [⟨st.nextId, name, t.id⟩], ?_, ?_⟩
          · rw [hgr, hlg, List.append_assoc]
          · intro g hg
            rcases List.mem_append.1 hg with h | h
            · exact hlgp g h
            · rcases List.mem_singleton.1 h with rfl
              rfl
        · refine ⟨lc, by rw [hca]; exact hlc, ?_⟩
          intro c hc
          obtain ⟨g0, hg0, c0, hc0, tg, htg, h1, h2, h3, h4, h5⟩ := hlcp c hc
          refine ⟨g0, hg0, c0, hc0, tg, ?_, h1, h2, h3, h4, h5⟩
          rw [hgr]
          exact List.mem_append_left _ htg
        · rw [hn]
          exact Nat.le_succ_of_le hinv.nid_mono
      · rw [hr1]
        unfold findGroup at hf ⊢
        rw [hgr, List.find?_append, hf]
        simp
      · rw [hr1]
      · rw [hr1]
      · rw [hr1, hgr]
        simp

end Budapp

namespace Budapp

/-! ### The category get-or-create step of the rollover copy -/

theorem catGOC_step (s0 : Store) (t : Budget) (sbid : Nat) (st : Store)
    (g0 : BudgetCategoryGroup) (c0 : BudgetCategory) (tg : BudgetCategoryGroup)
    (hg0 : g0 ∈ groupsOf s0 sbid) (hc0 : c0 ∈ categoriesOf s0 g0.id)
    (htg : tg ∈ st.budget_category_groups) (htgb : tg.budget = t.id)
    (htgn : tg.name = g0.name) (ht : t ∈ s0.budgets) (hwf : WF st)
    (hinv : CInv s0 t.id sbid st) :
    WF (categoryGetOrCreate st tg.id c0.category c0.limit).2 ∧
    CInv s0 t.id sbid (categoryGetOrCreate st tg.id c0.category c0.limit).2 ∧
    (categoryGetOrCreate st tg.id c0.category c0.limit).2.budgets = st.budgets ∧
    (categoryGetOrCreate st tg.id c0.category c0.limit).2.budget_category_groups =
      st.budget_category_groups ∧
    (∃ l, (categoryGetOrCreate st tg.id c0.category c0.limit).2.budget_categories =
      st.budget_categories ++ l) ∧
    (∃ tc, findCat (categoryGetOrCreate st tg.id c0.category c0.limit).2
        tg.id c0.category = some tc ∧
      (tc ∈ s0.budget_categories ∨ tc.limit = c0.limit)) := by
  cases hf : findCat st tg.id c0.category with
  | some tc =>
      have hr2 : (categoryGetOrCreate st tg.id c0.category c0.limit).2 = st := by
        simp [categoryGetOrCreate, hf]
      obtain ⟨htcmem, htcg, htcc⟩ := findCat_mem hf
      rw [hr2]
      refine ⟨hwf, hinv, rfl, rfl, ⟨[], by simp⟩, tc, hf, ?_⟩
      obtain ⟨lc, hlc, hlcp⟩ := hinv.cats_ext
      rw [hlc] at htcmem
      rcases List.mem_append.1 htcmem with hmem0 | hmemL
      · exact Or.inl hmem0
      · -- the found category was created earlier in this same run; its
        -- provenance identifies its source category with c0
        obtain ⟨g0', hg0', c0', hc0', tg', htg', h1, h2, h3, h4, h5⟩ := hlcp tc hmemL
        have htgeq : tg' = tg := by
          have hids : tg'.id = tg.id := h1 ▸ htcg
          refine pairwise_eq_of_not hwf.gr_id htg' htg ?_ ?_
          · exact not_not_intro hids
          · exact not_not_intro hids.symm
        have hg0eq : g0' = g0 := by
          obtain ⟨hm1, hp1⟩ := List.mem_filter.1 hg0'
          obtain ⟨hm2, hp2⟩ := List.mem_filter.1 hg0
          have hb1 : g0'.budget = sbid := by simpa using hp1
          have hb2 : g0.budget = sbid := by simpa using hp2
          have hname : g0'.name = g0.name := by
            rw [← h3, htgeq, htgn]
          refine pairwise_eq_of_not (CInv_wf_src hwf hinv).1 hm1 hm2 ?_ ?_
          · exact not_not_intro ⟨hb1.trans hb2.symm, hname⟩
          · exact not_not_intro ⟨hb2.trans hb1.symm, hname.symm⟩
        have hc0eq : c0' = c0 := by
          rw [hg0eq] at hc0'
          obtain ⟨hm1, hp1⟩ := List.mem_filter.1 hc0'
          obtain ⟨hm2, hp2⟩ := List.mem_filter.1 hc0
          have hgr1 : c0'.group = g0.id := by simpa using hp1
          have hgr2 : c0.group = g0.id := by simpa using hp2
          have hcat : c0'.category = c0.category := by
            rw [← h4, htcc]
          refine pairwise_eq_of_not (CInv_wf_src hwf hinv).2 hm1 hm2 ?_ ?_
          · exact not_not_intro ⟨hgr1.trans hgr2.symm, hcat⟩
          · exact not_not_intro ⟨hgr2.trans hgr1.symm, hcat.symm⟩
        exact Or.inr (h5.trans (hc0eq ▸ rfl))
  | none =>
      have hca : (categoryGetOrCreate st tg.id c0.category c0.limit).2.budget_categories =
          st.budget_categories ++ [⟨st.nextId, c0.category, tg.id, c0.limit⟩] := by
        simp [categoryGetOrCreate, hf]
      have hbu : (categoryGetOrCreate st tg.id c0.category c0.limit).2.budgets =
          st.budgets := by
        simp [categoryGetOrCreate, hf]
      have hgr : (categoryGetOrCreate st tg.id c0.category c0.limit).2.budget_category_groups =
          st.budget_category_groups := by
        simp [categoryGetOrCreate, hf]
      have hpa : (categoryGetOrCreate st tg.id c0.category c0.limit).2.payees =
          st.payees := by
        simp [categoryGetOrCreate, hf]
      have htx : (categoryGetOrCreate st tg.id c0.category c0.limit).2.transactions =
          st.transactions := by
        simp [categoryGetOrCreate, hf]
      have hn : (categoryGetOrCreate st tg.id c0.category c0.limit).2.nextId =
          st.nextId + 1 := by
        simp [categoryGetOrCreate, hf]
      have hnone := findCat_none hf
      refine ⟨?_, ?_, hbu, hgr,
        ⟨[⟨st.nextId, c0.category, tg.id, c0.limit⟩], hca⟩, ?_⟩
      · refine ⟨?_, ?_, ?_, ?_, ?_, ?_, ?_, ?_, ?_, ?_, ?_⟩
        · rw [hbu]; exact hwf.bu_key
        · rw [hbu]; exact hwf.bu_id
        · rw [hgr]; exact hwf.gr_key
        · rw [hgr]; exact hwf.gr_id
        · rw [hca]
          refine List.pairwise_append.2 ⟨hwf.ca_key, by simp, ?_⟩
          intro a ha b hb
          rcases List.mem_singleton.1 hb with rfl
          intro hcon
          exact hnone a ha ⟨hcon.1, hcon.2⟩
        · rw [hca]
          refine List.pairwise_append.2 ⟨hwf.ca_id, by simp, ?_⟩
          intro a ha b hb
          rcases List.mem_singleton.1 hb with rfl
          exact Nat.ne_of_lt (hwf.ca_lt a ha)
        · rw [hbu, hn]
          exact fun b hb => Nat.lt_succ_of_lt (hwf.bu_lt b hb)
        · rw [hgr, hn]
          exact fun g hg => Nat.lt_succ_of_lt (hwf.gr_lt g hg)
        · rw [hca, hn]
          intro c hc
          rcases List.mem_append.1 hc with h | h
          · exact Nat.lt_succ_of_lt (hwf.ca_lt c h)
          · rcases List.mem_singleton.1 h with rfl
            exact Nat.lt_succ_self _
        · rw [hgr, hn]
          exact fun g hg => Nat.lt_succ_of_lt (hwf.gr_ref g hg)
        · rw [hca, hn]
          intro c hc
          rcases List.mem_append.1 hc with h | h
          · exact Nat.lt_succ_of_lt (hwf.ca_ref c h)
          · rcases List.mem_singleton.1 h with rfl
            exact Nat.lt_succ_of_lt (hwf.gr_lt tg htg)
      · obtain ⟨lg, hlg, hlgp⟩ := hinv.groups_ext
        obtain ⟨lc, hlc, hlcp⟩ := hinv.cats_ext
        refine ⟨by rw [hbu]; exact hinv.budgets_eq,
                by rw [hpa]; exact hinv.payees_eq,
                by rw [htx]; exact hinv.txns_eq,
                ⟨lg, by rw [hgr]; exact hlg, hlgp⟩, ?_, ?_⟩
        · refine ⟨lc ++ [⟨st.nextId, c0.category, tg.id, c0.limit⟩], ?_, ?_⟩
          · rw [hca, hlc, List.append_assoc]
          · intro c hc
            rcases List.mem_append.1 hc with h | h
            · obtain ⟨g0', hg0', c0', hc0', tg', htg', h1, h2, h3, h4, h5⟩ := hlcp c h
              exact ⟨g0', hg0', c0', hc0', tg', by rw [hgr]; exact htg',
                h1, h2, h3, h4, h5⟩
            · rcases List.mem_singleton.1 h with rfl
              exact ⟨g0, hg0, c0, hc0, tg, by rw [hgr]; exact htg,
                rfl, htgb, htgn, rfl, rfl⟩
        · rw [hn]
          exact Nat.le_succ_of_le hinv.nid_mono
      · refine ⟨⟨st.nextId, c0.category, tg.id, c0.limit⟩, ?_, Or.inr rfl⟩
        unfold findCat at hf ⊢
        rw [hca, List.find?_append, hf]
        simp

end Budapp

namespace Budapp

/-! ### The category fold of one group step -/

theorem catFold_spec (s0 : Store) (t : Budget) (sbid : Nat)
    (g0 : BudgetCategoryGroup) (tg : BudgetCategoryGroup)
    (hg0 : g0 ∈ groupsOf s0 sbid) (htgb : tg.budget = t.id)
    (htgn : tg.name = g0.name) (ht : t ∈ s0.budgets) :
    ∀ (cs : List BudgetCategory) (st : Store),
      (∀ c ∈ cs, c ∈ categoriesOf s0 g0.id) →
      tg ∈ st.budget_category_groups → WF st → CInv s0 t.id sbid st →
      WF (cs.foldl (catFoldStep tg.id) st) ∧
      CInv s0 t.id sbid (cs.foldl (catFoldStep tg.id) st) ∧
      (cs.foldl (catFoldStep tg.id) st).budgets = st.budgets ∧
      (cs.foldl (catFoldStep tg.id) st).budget_category_groups =
        st.budget_category_groups ∧
      (∃ l, (cs.foldl (catFoldStep tg.id) st).budget_categories =
        st.budget_categories ++ l) ∧
      (∀ c ∈ cs, ∃ tc,
        findCat (cs.foldl (catFoldStep tg.id) st) tg.id c.category = some tc ∧
        (tc ∈ s0.budget_categories ∨ tc.limit = c.limit)) := by
  intro cs
  induction cs with
  | nil =>
      intro st _ _ hwf hinv
      exact ⟨hwf, hinv, rfl, rfl, ⟨[], by simp⟩, by simp⟩
  | cons c rest ih =>
      intro st hcs htg hwf hinv
      have hc : c ∈ categoriesOf s0 g0.id := hcs c (by simp)
      obtain ⟨hwf1, hinv1, hbu1, hgr1, hca1, tc, htc, hdisj⟩ :=
        catGOC_step s0 t sbid st g0 c tg hg0 hc htg htgb htgn ht hwf hinv
      have hwf1' : WF (catFoldStep tg.id st c) := hwf1
      have hinv1' : CInv s0 t.id sbid (catFoldStep tg.id st c) := hinv1
      have hbu1' : (catFoldStep tg.id st c).budgets = st.budgets := hbu1
      have hgr1' : (catFoldStep tg.id st c).budget_category_groups =
        st.budget_category_groups := hgr1
      have hca1' : ∃ l, (catFoldStep tg.id st c).budget_categories =
        st.budget_categories ++ l := hca1
      have htc' : findCat (catFoldStep tg.id st c) tg.id c.category = some tc := htc
      have htg1 : tg ∈ (catFoldStep tg.id st c).budget_category_groups := by
        rw [hgr1']; exact htg
      obtain ⟨hwfF, hinvF, hbuF, hgrF, hcaF, hcovF⟩ :=
        ih (catFoldStep tg.id st c)
          (fun c' hc' => hcs c' (List.mem_cons_of_mem c hc')) htg1 hwf1' hinv1'
      rw [List.foldl_cons]
      refine ⟨hwfF, hinvF, ?_, ?_, ?_, ?_⟩
      · rw [hbuF]; exact hbu1'
      · rw [hgrF]; exact hgr1'
      · obtain ⟨l1, hl1⟩ := hca1'
        obtain ⟨l2, hl2⟩ := hcaF
        exact ⟨l1 ++ l2, by rw [hl2, hl1, List.append_assoc]⟩
      · intro c' hc'
        rcases List.mem_cons.1 hc' with h | h
        · subst h
          exact ⟨tc, findCat_mono tg.id c'.category hcaF htc', hdisj⟩
        · exact hcovF c' h

/-! ### The group fold of the rollover copy -/

theorem groupFold_spec (s0 : Store) (t : Budget) (sbid : Nat) (ht : t ∈ s0.budgets) :
    ∀ (gs : List BudgetCategoryGroup) (st : Store),
      (∀ g ∈ gs, g ∈ groupsOf s0 sbid) → WF st → CInv s0 t.id sbid st →
      WF (gs.foldl (groupFoldStep s0 t.id) st) ∧
      CInv s0 t.id sbid (gs.foldl (groupFoldStep s0 t.id) st) ∧
      (gs.foldl (groupFoldStep s0 t.id) st).budgets = st.budgets ∧
      (∃ l, (gs.foldl (groupFoldStep s0 t.id) st).budget_category_groups =
        st.budget_category_groups ++ l) ∧
      (∃ l, (gs.foldl (groupFoldStep s0 t.id) st).budget_categories =
        st.budget_categories ++ l) ∧
      (∀ g ∈ gs, ∃ tg,
        findGroup (gs.foldl (groupFoldStep s0 t.id) st) t.id g.name = some tg ∧
        tg.budget = t.id ∧ tg.name = g.name ∧
        (∀ c ∈ categoriesOf s0 g.id, ∃ tc,
          findCat (gs.foldl (groupFoldStep s0 t.id) st) tg.id c.category = some tc ∧
          (tc ∈ s0.budget_categories ∨ tc.limit = c.limit))) := by
  intro gs
  induction gs with
  | nil =>
      intro st _ hwf hinv
      exact ⟨hwf, hinv, rfl, ⟨[], by simp⟩, ⟨[], by simp⟩, by simp⟩
  | cons g rest ih =>
      intro st hgs hwf hinv
      have hg : g ∈ groupsOf s0 sbid := hgs g (by simp)
      obtain ⟨hwf1, hinv1, hbu1, hca1, hgr1ext, hfg1, hgb1, hgn1, hgmem1⟩ :=
        groupGOC_step s0 t sbid st g.name ht hwf hinv
      obtain ⟨hwf2, hinv2, hbu2, hgr2, hca2ext, hcov2⟩ :=
        catFold_spec s0 t sbid g (groupGetOrCreate st t.id g.name).1 hg hgb1 hgn1 ht
          (categoriesOf s0 g.id) (groupGetOrCreate st t.id g.name).2
          (fun _ hc => hc) hgmem1 hwf1 hinv1
      have hwf2' : WF (groupFoldStep s0 t.id st g) := hwf2
      have hinv2' : CInv s0 t.id sbid (groupFoldStep s0 t.id st g) := hinv2
      have hbu2' : (groupFoldStep s0 t.id st g).budgets = st.budgets := by
        have h : (groupFoldStep s0 t.id st g).budgets =
          (groupGetOrCreate st t.id g.name).2.budgets := hbu2
        rw [h, hbu1]
      have hgr2' : (groupFoldStep s0 t.id st g).budget_category_groups =
          (groupGetOrCreate st t.id g.name).2.budget_category_groups := hgr2
      have hgrext' : ∃ l, (groupFoldStep s0 t.id st g).budget_category_groups =
          st.budget_category_groups ++ l := by
        obtain ⟨l, hl⟩ := hgr1ext
        exact ⟨l, by rw [hgr2', hl]⟩
      have hcaext' : ∃ l, (groupFoldStep s0 t.id st g).budget_categories =
          st.budget_categories ++ l := by
        obtain ⟨l, hl⟩ := hca2ext
        exact ⟨l, by rw [show (groupFoldStep s0 t.id st g).budget_categories =
          (groupGetOrCreate st t.id g.name).2.budget_categories ++ l from hl, hca1]⟩
      have hfg2 : findGroup (groupFoldStep s0 t.id st g) t.id g.name =
          some (groupGetOrCreate st t.id g.name).1 := by
        rw [findGroup_congr t.id g.name hgr2']
        exact hfg1
      have hcov2' : ∀ c ∈ categoriesOf s0 g.id, ∃ tc,
          findCat (groupFoldStep s0 t.id st g)
            (groupGetOrCreate st t.id g.name).1.id c.category = some tc ∧
          (tc ∈ s0.budget_categories ∨ tc.limit = c.limit) := hcov2
      obtain ⟨hwfF, hinvF, hbuF, hgrextF, hcaextF, hcovF⟩ :=
        ih (groupFoldStep s0 t.id st g)
          (fun g' hg' => hgs g' (List.mem_cons_of_mem g hg')) hwf2' hinv2'
      rw [List.foldl_cons]
      refine ⟨hwfF, hinvF, ?_, ?_, ?_, ?_⟩
      · rw [hbuF, hbu2']
      · obtain ⟨l1, hl1⟩ := hgrext'
        obtain ⟨l2, hl2⟩ := hgrextF
        exact ⟨l1 ++ l2, by rw [hl2, hl1, List.append_assoc]⟩
      · obtain ⟨l1, hl1⟩ := hcaext'
        obtain ⟨l2, hl2⟩ := hcaextF
        exact ⟨l1 ++ l2, by rw [hl2, hl1, List.append_assoc]⟩
      · intro g' hg'
        rcases List.mem_cons.1 hg' with h | h
        · subst h
          refine ⟨(groupGetOrCreate st t.id g'.name).1,
            findGroup_mono t.id g'.name hgrextF hfg2, hgb1, hgn1, ?_⟩
          intro c hc
          obtain ⟨tc, htc, hdisj⟩ := hcov2' c hc
          exact ⟨tc, findCat_mono _ c.category hcaextF htc, hdisj⟩
        · exact hcovF g' h

end Budapp

namespace Budapp

/-! ### Stability of the rollover copy -/

theorem copy_categories_stable (st : Store) (target source : Budget)
    (h : ∀ g ∈ groupsOf st source.id, ∃ tg,
      findGroup st target.id g.name = some tg ∧
      ∀ c ∈ categoriesOf st g.id, ∃ tc, findCat st tg.id c.category = some tc) :
    copy_categories st target source = st := by
  unfold copy_categories
  apply foldl_fixed
  intro g hg
  obtain ⟨tg, htg, hcats⟩ := h g hg
  have hr : groupGetOrCreate st target.id g.name = (tg, st) := by
    simp [groupGetOrCreate, htg]
  simp only [groupFoldStep, hr]
  apply foldl_fixed
  intro c hc
  obtain ⟨tc, htc⟩ := hcats c hc
  show (categoryGetOrCreate st tg.id c.category c.limit).2 = st
  simp [categoryGetOrCreate, htc]

theorem self_copy_coverage (st : Store) (target source : Budget) (hwf : WF st)
    (hid : source.id = target.id) :
    ∀ g ∈ groupsOf st source.id, ∃ tg,
      findGroup st target.id g.name = some tg ∧
      ∀ c ∈ categoriesOf st g.id, ∃ tc, findCat st tg.id c.category = some tc := by
  intro g hg
  obtain ⟨hgm, hgp⟩ := List.mem_filter.1 hg
  have hgb : g.budget = source.id := by simpa using hgp
  have hpred : (g.budget == target.id && g.name == g.name) = true := by
    simp [hgb, hid]
  obtain ⟨tg, htg⟩ := @find_some_of_mem BudgetCategoryGroup
    (fun x => x.budget == target.id && x.name == g.name)
    st.budget_category_groups g hgm hpred
  have htg' : findGroup st target.id g.name = some tg := htg
  obtain ⟨htgm, htgb, htgn⟩ := findGroup_mem htg'
  have htgeq : tg = g := by
    have hb : tg.budget = g.budget := htgb.trans (hgb.trans hid).symm
    refine pairwise_eq_of_not hwf.gr_key htgm hgm ?_ ?_
    · exact not_not_intro ⟨hb, htgn⟩
    · exact not_not_intro ⟨hb.symm, htgn.symm⟩
  refine ⟨tg, htg', ?_⟩
  intro c hc
  obtain ⟨hcm, hcp⟩ := List.mem_filter.1 hc
  have hcg : c.group = g.id := by simpa using hcp
  have hcpred : (c.group == tg.id && c.category == c.category) = true := by
    simp [hcg, htgeq]
  obtain ⟨tc, htc⟩ := @find_some_of_mem BudgetCategory
    (fun x => x.group == tg.id && x.category == c.category)
    st.budget_categories c hcm hcpred
  exact ⟨tc, htc⟩

/-- Unfolding `copy_budget` once the target get-or-create is known. -/
theorem copy_budget_eq (s : Store) (ty : Int) (tm : String) (u : Nat)
    (src : Option Budget) (t : Budget) (s' : Store)
    (hg : budgetGetOrCreate s tm ty u = (t, s')) :
    copy_budget s ty tm u src =
      match resolved_source s' t src with
      | Except.error e => Except.error e
      | Except.ok (some sb) => Except.ok (copy_categories s' t sb)
      | Except.ok none => Except.ok (delete_categories s' t) := by
  simp only [copy_budget, hg]

end Budapp

namespace Budapp

/-! ### C1: the copy is an additive merge of the source structure -/

/-- C1: for a copy-budget run with a determined source, every source
group has a same-named group under the target in the result, every
category of each source group has a same-named category in that target
group whose limit is the copied source limit unless the category
already existed before the run, and every pre-existing category row
survives verbatim (limits never overwritten). -/
theorem claim_C1_copy_additive (s : Store) (ty : Int) (tm : String) (u : Nat)
    (src : Option Budget) (t : Budget) (s1a : Store) (sb : Budget) (s' : Store)
    (hwf : WF s)
    (hga : budgetGetOrCreate s tm ty u = (t, s1a))
    (hrs : resolved_source s1a t src = Except.ok (some sb))
    (hrun : copy_budget s ty tm u src = Except.ok s') :
    (∀ g ∈ groupsOf s sb.id, ∃ tg ∈ s'.budget_category_groups,
      tg.budget = t.id ∧ tg.name = g.name ∧
      ∀ c ∈ categoriesOf s g.id, ∃ tc ∈ s'.budget_categories,
        tc.group = tg.id ∧ tc.category = c.category ∧
        (tc ∈ s.budget_categories ∨ tc.limit = c.limit)) ∧
    (∀ c ∈ s.budget_categories, c ∈ s'.budget_categories) := by
  obtain ⟨hwf1a, hgr1a, hca1a, hpa1a, htx1a, hmem1a⟩ := budgetGOC_wf s tm ty u hwf
  simp only [hga] at hwf1a hgr1a hca1a hpa1a htx1a hmem1a
  rw [copy_budget_eq s ty tm u src t s1a hga, hrs] at hrun
  have hs' : copy_categories s1a t sb = s' := by simpa using hrun
  obtain ⟨hwfS, hinvS, hbudS, hgrextS, hcaextS, hcovS⟩ :=
    groupFold_spec s1a t sb.id hmem1a (groupsOf s1a sb.id) s1a (fun _ hg => hg)
      hwf1a (CInv_refl s1a t.id sb.id)
  have hcovS' : ∀ g ∈ groupsOf s1a sb.id, ∃ tg,
      findGroup s' t.id g.name = some tg ∧ tg.budget = t.id ∧ tg.name = g.name ∧
      (∀ c ∈ categoriesOf s1a g.id, ∃ tc,
        findCat s' tg.id c.category = some tc ∧
        (tc ∈ s1a.budget_categories ∨ tc.limit = c.limit)) := by
    rw [← hs']
    exact hcovS
  have hcaextS' : ∃ l, s'.budget_categories = s1a.budget_categories ++ l := by
    rw [← hs']
    exact hcaextS
  constructor
  · intro g hg
    have hg1a : g ∈ groupsOf s1a sb.id := by
      unfold groupsOf at hg ⊢
      rw [hgr1a]
      exact hg
    obtain ⟨tg, htg, htgb, htgn, hcats⟩ := hcovS' g hg1a
    obtain ⟨htgmem, -, -⟩ := findGroup_mem htg
    refine ⟨tg, htgmem, htgb, htgn, ?_⟩
    intro c hc
    have hc1a : c ∈ categoriesOf s1a g.id := by
      unfold categoriesOf at hc ⊢
      rw [hca1a]
      exact hc
    obtain ⟨tc, htc, hdisj⟩ := hcats c hc1a
    obtain ⟨htcmem, htcg, htcc⟩ := findCat_mem htc
    refine ⟨tc, htcmem, htcg, htcc, ?_⟩
    rcases hdisj with h | h
    · exact Or.inl (by rw [← hca1a]; exact h)
    · exact Or.inr h
  · intro c hc
    obtain ⟨l, hl⟩ := hcaextS'
    rw [hl, hca1a]
    exact List.mem_append_left _ hc

/-! ### C2: no source leaves the target with zero groups -/

/-- C2: a copy-budget run with no explicit source and no resolvable
previous-month budget deletes all of the target budget category groups:
the resulting target has zero groups. -/
theorem claim_C2_empty_rollover (s : Store) (ty : Int) (tm : String) (u : Nat)
    (t : Budget) (s1a : Store) (s' : Store)
    (hga : budgetGetOrCreate s tm ty u = (t, s1a))
    (hrs : resolved_source s1a t none = Except.ok none)
    (hrun : copy_budget s ty tm u none = Except.ok s') :
    groupsOf s' t.id = [] := by
  rw [copy_budget_eq s ty tm u none t s1a hga, hrs] at hrun
  have hs' : delete_categories s1a t = s' := by simpa using hrun
  rw [← hs']
  exact delete_categories_groups s1a t

/-! ### C4: copy-budget is idempotent -/

/-- C4: on a well-formed store, running copy-budget twice with
identical arguments returns exactly the store of the first run, and the
second target get-or-create finds the budget created or found by the
first run instead of creating a duplicate. -/
theorem claim_C4_idempotent (s : Store) (ty : Int) (tm : String) (u : Nat)
    (src : Option Budget) (s1 : Store) (hwf : WF s)
    (h1 : copy_budget s ty tm u src = Except.ok s1) :
    copy_budget s1 ty tm u src = Except.ok s1 ∧
    budgetGetOrCreate s1 tm ty u = ((budgetGetOrCreate s tm ty u).1, s1) := by
  obtain ⟨t, s1a, hts⟩ : ∃ t s1a, budgetGetOrCreate s tm ty u = (t, s1a) :=
    ⟨_, _, rfl⟩
  obtain ⟨hwf1a, hgr1a, hca1a, hpa1a, htx1a, hmem1a⟩ := budgetGOC_wf s tm ty u hwf
  simp only [hts] at hwf1a hgr1a hca1a hpa1a htx1a hmem1a
  have hfound : s1a.budgets.find? (budgetKey u tm ty) = some t := by
    have h := budgetGOC_found s tm ty u
    simp only [hts] at h
    exact h
  rw [copy_budget_eq s ty tm u src t s1a hts] at h1
  cases hrs : resolved_source s1a t src with
  | error e =>
      rw [hrs] at h1
      exact absurd h1 (by simp)
  | ok osb =>
      rw [hrs] at h1
      cases osb with
      | none =>
          have hs1 : delete_categories s1a t = s1 := by simpa using h1
          have hsrc_none : src = none := by
            cases src with
            | none => rfl
            | some sb' => simp [resolved_source] at hrs
          subst hsrc_none
          have hprev : previous s1a t = Except.ok none := hrs
          have hbud1 : s1.budgets = s1a.budgets := by
            rw [← hs1]
            rfl
          have hfind1 : s1.budgets.find? (budgetKey u tm ty) = some t := by
            rw [hbud1]
            exact hfound
          have hGOC2 : budgetGetOrCreate s1 tm ty u = (t, s1) := by
            simp [budgetGetOrCreate, hfind1]
          refine ⟨?_, by simp [hGOC2, hts]⟩
          rw [copy_budget_eq s1 ty tm u none t s1 hGOC2]
          have hrs2 : resolved_source s1 t none = Except.ok none := by
            show previous s1 t = Except.ok none
            rw [previous_congr s1a s1 t hbud1]
            exact hprev
          rw [hrs2, ← hs1, delete_twice]
      | some sb =>
          have hs1 : copy_categories s1a t sb = s1 := by simpa using h1
          obtain ⟨hwfS, hinvS, hbudS, hgrextS, hcaextS, hcovS⟩ :=
            groupFold_spec s1a t sb.id hmem1a (groupsOf s1a sb.id) s1a
              (fun _ hg => hg) hwf1a (CInv_refl s1a t.id sb.id)
          have hwfS1 : WF s1 := by
            rw [← hs1]
            exact hwfS
          have hinvS1 : CInv s1a t.id sb.id s1 := by
            rw [← hs1]
            exact hinvS
          have hbudS1 : s1.budgets = s1a.budgets := by
            rw [← hs1]
            exact hbudS
          have hcovS1 : ∀ g ∈ groupsOf s1a sb.id, ∃ tg,
              findGroup s1 t.id g.name = some tg ∧ tg.budget = t.id ∧
              tg.name = g.name ∧
              (∀ c ∈ categoriesOf s1a g.id, ∃ tc,
                findCat s1 tg.id c.category = some tc ∧
                (tc ∈ s1a.budget_categories ∨ tc.limit = c.limit)) := by
            rw [← hs1]
            exact hcovS
          have hfind1 : s1.budgets.find? (budgetKey u tm ty) = some t := by
            rw [hbudS1]
            exact hfound
          have hGOC2 : budgetGetOrCreate s1 tm ty u = (t, s1) := by
            simp [budgetGetOrCreate, hfind1]
          have hrs2 : resolved_source s1 t src = Except.ok (some sb) := by
            cases src with
            | some sb' =>
                have hsb : sb' = sb := by simpa [resolved_source] using hrs
                subst hsb
                rfl
            | none =>
                show previous s1 t = Except.ok (some sb)
                rw [previous_congr s1a s1 t hbudS1]
                exact hrs
          refine ⟨?_, by simp [hGOC2, hts]⟩
          rw [copy_budget_eq s1 ty tm u src t s1 hGOC2, hrs2]
          suffices hstab : copy_categories s1 t sb = s1 by
            exact congrArg Except.ok hstab
          apply copy_categories_stable
          by_cases hid : sb.id = t.id
          · have hs1a_eq : copy_categories s1a t sb = s1a :=
              copy_categories_stable s1a t sb
                (self_copy_coverage s1a t sb hwf1a hid)
            have hss : s1 = s1a := by rw [← hs1, hs1a_eq]
            rw [hss]
            exact self_copy_coverage s1a t sb hwf1a hid
          · intro g hg
            have hgroups_eq : groupsOf s1 sb.id = groupsOf s1a sb.id := by
              obtain ⟨lg, hlg, hlgp⟩ := hinvS1.groups_ext
              unfold groupsOf
              rw [hlg, List.filter_append]
              have hnil : lg.filter (fun g' => g'.budget == sb.id) = [] := by
                refine List.filter_eq_nil_iff.2 ?_
                intro g' hg' hcon
                have hb' : g'.budget = sb.id := by simpa using hcon
                have hbt : g'.budget = t.id := hlgp g' hg'
                exact hid (hb' ▸ hbt)
              rw [hnil, List.append_nil]
            rw [hgroups_eq] at hg
            obtain ⟨tg, htg, htgb, htgn, hcats⟩ := hcovS1 g hg
            refine ⟨tg, htg, ?_⟩
            have hcats_eq : categoriesOf s1 g.id = categoriesOf s1a g.id := by
              obtain ⟨lc, hlc, hlcp⟩ := hinvS1.cats_ext
              unfold categoriesOf
              rw [hlc, List.filter_append]
              have hnil : lc.filter (fun c => c.group == g.id) = [] := by
                refine List.filter_eq_nil_iff.2 ?_
                intro c hc hcon
                have hcg : c.group = g.id := by simpa using hcon
                obtain ⟨g0, hg0, c0, hc0, tg', htg', h1, h2, h3, h4, h5⟩ :=
                  hlcp c hc
                have hgmem : g ∈ s1.budget_category_groups := by
                  obtain ⟨lg, hlg, -⟩ := hinvS1.groups_ext
                  rw [hlg]
                  exact List.mem_append_left _ (List.mem_filter.1 hg).1
                have hideq : g.id = tg'.id := by rw [← hcg, h1]
                have hgeq : g = tg' :=
                  pairwise_eq_of_not hwfS1.gr_id hgmem htg'
                    (not_not_intro hideq) (not_not_intro hideq.symm)
                have hbt : g.budget = t.id := by rw [hgeq]; exact h2
                have hgb : g.budget = sb.id := by
                  simpa using (List.mem_filter.1 hg).2
                exact hid (hgb ▸ hbt)
              rw [hnil, List.append_nil]
            intro c hc
            rw [hcats_eq] at hc
            obtain ⟨tc, htc, -⟩ := hcats c hc
            exact ⟨tc, htc⟩

end Budapp

namespace Budapp

/-- Witness for C1: rolling January 2024 forward to February copies the
`Living` group and the `Rent` category with its 1000.00 limit. -/
theorem claim_C1_witness :
    (∀ g ∈ groupsOf exStoreJan 10, ∃ tg ∈ exStoreFeb.budget_category_groups,
      tg.budget = 13 ∧ tg.name = g.name ∧
      ∀ c ∈ categoriesOf exStoreJan g.id, ∃ tc ∈ exStoreFeb.budget_categories,
        tc.group = tg.id ∧ tc.category = c.category ∧
        (tc ∈ exStoreJan.budget_categories ∨ tc.limit = c.limit)) ∧
    (∀ c ∈ exStoreJan.budget_categories, c ∈ exStoreFeb.budget_categories) :=
  claim_C1_copy_additive exStoreJan 2024 "FEB" 1 none ⟨13, "FEB", 2024, 1⟩
    exStoreJanT ⟨10, "JAN", 2024, 1⟩ exStoreFeb
    (by constructor <;> decide) rfl rfl rfl

/-- Witness for C2: the February budget whose owner has no January
budget loses all its groups. -/
theorem claim_C2_witness :
    groupsOf (okOr exStoreNoPrev (copy_budget exStoreNoPrev 2024 "FEB" 1 none)) 10 = [] :=
  claim_C2_empty_rollover exStoreNoPrev 2024 "FEB" 1 ⟨10, "FEB", 2024, 1⟩
    exStoreNoPrev (okOr exStoreNoPrev (copy_budget exStoreNoPrev 2024 "FEB" 1 none))
    rfl rfl rfl

/-- Witness for C4: running the January-to-February rollover a second
time returns exactly the store of the first run. -/
theorem claim_C4_witness :
    copy_budget exStoreJan 2024 "FEB" 1 none = Except.ok exStoreFeb ∧
    copy_budget exStoreFeb 2024 "FEB" 1 none = Except.ok exStoreFeb :=
  ⟨rfl, (claim_C4_idempotent exStoreJan 2024 "FEB" 1 none exStoreFeb
    (by constructor <;> decide) rfl).1⟩

end Budapp
